import Mathlib

/-
Verification of the google_alerts_ai_filter pipeline.

Shallow embedding of the analysis pipeline (src/analysis/relevanceAnalyzer.ts,
src/analysis/claudeClient.ts), the deduplicator (src/utils/deduplicationUtils.ts),
the exporter (dist/utils/exportFormatter.js) and the CSV writer
(src/utils/manualCsvWriter.ts).  JavaScript strings are modelled as `List Char`
where character-level scanning matters; stateful module-level variables are
passed explicitly; the Claude API call is an oracle parameter.
-/

namespace AlertsFilter

/-- Article record produced by the scraper stage (interface `ArticleOutput`):
alert label, title, URL, extracted plain-text content, optional extraction error. -/
structure ArticleOutput where
  alertName : String
  title : String
  link : String
  content : String
  error : Option String
deriving DecidableEq, Repr

/-- Interface `AnalyzedArticle` (src/analysis/relevanceAnalyzer.ts lines 5-8):
an `ArticleOutput` extended with a relevance score and an explanation. -/
structure AnalyzedArticle extends ArticleOutput where
  relevanceScore : Nat
  relevanceExplanation : String
deriving DecidableEq, Repr

/-- Characters matched by the JavaScript regex class `\s` (restricted to the
ASCII range, which is all the scanner literals use). -/
def jsSpace (c : Char) : Bool :=
  c = ' ' || c = '\t' || c = '\n' || c = '\r' || c = '\x0b' || c = '\x0c'

/-- JavaScript `String.prototype.trim`: strip whitespace from both ends. -/
def jsTrim (s : List Char) : List Char :=
  ((s.dropWhile jsSpace).reverse.dropWhile jsSpace).reverse

/-- The literal of the regex `/ARTICLE_ID:\s*(\d+)/`. -/
def idTag : List Char := "ARTICLE_ID:".data

/-- The literal of the regex `/RELEVANCE_SCORE:\s*(\d+)/`. -/
def scoreTag : List Char := "RELEVANCE_SCORE:".data

/-- The literal of the regex `/EXPLANATION:\s*([\s\S]+?)(?=ARTICLE_ID:|$)/`. -/
def expTag : List Char := "EXPLANATION:".data

/-- Attempt to match the regex `tag ++ \s*(\d+)` at the start of `s`.
On success return the captured digit run and the remainder after it. -/
def tagNumAt (tag s : List Char) : Option (List Char × List Char) :=
  if tag.isPrefixOf s then
    let r := (s.drop tag.length).dropWhile jsSpace
    let ds := r.takeWhile Char.isDigit
    if ds.isEmpty then none else some (ds, r.drop ds.length)
  else none

/-- Leftmost match of the regex `tag ++ \s*(\d+)` in `s`: returns the text
before the match, the captured digits, and the remainder after the digits. -/
def findTagNum (tag : List Char) : List Char → Option (List Char × List Char × List Char)
  | [] => none
  | c :: t =>
    match tagNumAt tag (c :: t) with
    | some (ds, rest) => some ([], ds, rest)
    | none =>
      match findTagNum tag t with
      | some (pre, ds, rest) => some (c :: pre, ds, rest)
      | none => none

/-- Pairing loop over the output of `String.prototype.split` with a capturing
regex: each captured digit run is paired with the text up to the next match
(or the tail of the string).  Structural recursion on a fuel argument so the
definition reduces inside the kernel; by `findTagNum_rest_lt` the remainder
shrinks at every step, so fuel `rest.length + 1` never runs out (the lemma
`splitPairsGo_fuel_irrelevant` below makes this precise). -/
def splitPairsGo (tag : List Char) : Nat → List Char → List Char →
    List (List Char × List Char)
  | 0, ds, rest => [(ds, rest)]
  | fuel + 1, ds, rest =>
    match findTagNum tag rest with
    | none => [(ds, rest)]
    | some (pre, ds2, rest2) => (ds, pre) :: splitPairsGo tag fuel ds2 rest2

/-- JavaScript `result.split(/ARTICLE_ID:\s*(\d+)/)` followed by the index
pairing of the parser loop (src/analysis/relevanceAnalyzer.ts lines 49-56):
the list of (captured id digits, following section text) pairs. -/
def splitOnTag (tag s : List Char) : List (List Char × List Char) :=
  match findTagNum tag s with
  | none => []
  | some (_, ds, rest) => splitPairsGo tag (rest.length + 1) ds rest

/-- Lazy capture scan of the explanation regex: take characters until the
position where `tag` begins (checking from the current position onward). -/
def lazyTakeUntil (tag : List Char) : List Char → List Char
  | [] => []
  | c :: t => if tag.isPrefixOf (c :: t) then [] else c :: lazyTakeUntil tag t

/-- Attempt to match `/EXPLANATION:\s*([\s\S]+?)(?=ARTICLE_ID:|$)/` at the
start of `s`, returning the capture group.  The lazy group takes at least one
character and stops as soon as `ARTICLE_ID:` follows or the text ends; when
only whitespace follows the colon, backtracking leaves the last whitespace
character as the capture. -/
def explanationCapture (s : List Char) : Option (List Char) :=
  if expTag.isPrefixOf s then
    let r := s.drop expTag.length
    let ws := r.takeWhile jsSpace
    let body := r.dropWhile jsSpace
    match body with
    | [] =>
      match ws.getLast? with
      | some c => some [c]
      | none => none
    | c :: t => some (c :: lazyTakeUntil idTag t)
  else none

/-- Leftmost successful match of the explanation regex in `s`. -/
def findExplanation : List Char → Option (List Char)
  | [] => none
  | c :: t =>
    match explanationCapture (c :: t) with
    | some cap => some cap
    | none => findExplanation t

/-- Value of a decimal digit run, as computed by `parseInt(-, 10)` on a
string of digits. -/
def digitsToNat (ds : List Char) : Nat :=
  ds.foldl (fun n c => 10 * n + (c.toNat - '0'.toNat)) 0

/-- Per-article value stored by the batch-response parser. -/
structure ScoreResult where
  score : Nat
  explanation : String
deriving DecidableEq, Repr

/-- JavaScript `Map.prototype.set` on a map represented as an association
list in insertion order: replace the value at an existing key in place,
otherwise append the pair. -/
def mapSet (m : List (List Char × ScoreResult)) (k : List Char) (v : ScoreResult) :
    List (List Char × ScoreResult) :=
  match m with
  | [] => [(k, v)]
  | (k2, v2) :: t => if k2 = k then (k, v) :: t else (k2, v2) :: mapSet t k v

/-- Body of the parser loop (src/analysis/relevanceAnalyzer.ts lines 55-71):
trim the section, extract the score (defaulting to 0, clamped to [0,100])
and the explanation (defaulting to a fixed message). -/
def parseSection (content : List Char) : ScoreResult :=
  let c := jsTrim content
  let score : Nat :=
    match findTagNum scoreTag c with
    | some (_, d, _) => digitsToNat d
    | none => 0
  let explanation : String :=
    match findExplanation c with
    | some cap => String.mk (jsTrim cap)
    | none => "No explanation provided"
  ⟨min (max score 0) 100, explanation⟩

/-- Function `parseBatchAnalysisResult` (src/analysis/relevanceAnalyzer.ts
lines 40-80): split the response on the ARTICLE_ID marker and build the map
from trimmed id digits to score/explanation results.  A `none` response (the
null case) yields the empty map. -/
def parseBatchAnalysisResult (result : Option (List Char)) :
    List (List Char × ScoreResult) :=
  match result with
  | none => []
  | some res =>
    (splitOnTag idTag res).foldl
      (fun m p => mapSet m (jsTrim p.1) (parseSection p.2)) []

/-- Diagnostic explanation pushed when the parsed map has no entry for an
expected batch-local id (src/analysis/relevanceAnalyzer.ts line 170). -/
def failedExplanation : String :=
  "Error: Failed to get analysis result for this article in batch."

/-- Diagnostic explanation pushed for every article of a batch whose call
threw (src/analysis/relevanceAnalyzer.ts line 184). -/
def errorExplanation (error : String) : String :=
  "Error during batch analysis: " ++ error

/-- The mapping step of the batch loop (src/analysis/relevanceAnalyzer.ts
lines 154-174): each article of the batch, by its 1-based in-batch index, is
paired with its parsed result, or with score 0 and `failedExplanation` when
the parsed map has no entry for its id. -/
def correlateBatch (batch : List ArticleOutput)
    (articleResults : List (List Char × ScoreResult)) : List AnalyzedArticle :=
  batch.enum.map fun p =>
    match List.lookup (Nat.repr (p.1 + 1)).data articleResults with
    | some r => ⟨p.2, r.score, r.explanation⟩
    | none => ⟨p.2, 0, failedExplanation⟩

/-- Batch splitting loop (src/analysis/relevanceAnalyzer.ts lines 104-106),
with fuel `l.length`, which suffices whenever `1 ≤ k` (for `k = 0` the
JavaScript loop never terminates, so no claim is made there). -/
def chunksF : Nat → Nat → List ArticleOutput → List (List ArticleOutput)
  | 0, _, _ => []
  | _, _, [] => []
  | fuel + 1, k, c :: t => ((c :: t).take k) :: chunksF fuel k ((c :: t).drop k)

/-- Splits `l` into consecutive chunks of at most `k` articles. -/
def chunks (k : Nat) (l : List ArticleOutput) : List (List ArticleOutput) :=
  chunksF l.length k l

/-- Outcome of one `analyzeText` call: either a response (possibly null),
or a thrown error carrying its message. -/
inductive CallOutcome where
  | ok (response : Option (List Char))
  | err (error : String)

/-- Month and year of a JavaScript `Date` (all the cost-ledger code reads
from parsed dates). -/
structure JsDate where
  month : Nat
  year : Nat
deriving DecidableEq, Repr

/-- Interface `CostTracking` (src/analysis/claudeClient.ts lines 8-14); the
`lastUpdated` ISO string is modelled by its month/year, which is all the code
compares.  Dollar amounts are exact rationals. -/
structure CostTracking where
  totalCost : ℚ
  inputTokens : Nat
  outputTokens : Nat
  lastUpdated : JsDate
  requestCount : Nat
deriving DecidableEq, Repr

/-- Function `calculateCost` (src/analysis/claudeClient.ts lines 89-93). -/
def calculateCost (inputTokens outputTokens : Nat) : ℚ :=
  (inputTokens : ℚ) / 1000 * (25 / 100000) + (outputTokens : ℚ) / 1000 * (125 / 100000)

/-- Function `updateCostTracking` (src/analysis/claudeClient.ts lines
98-111): add the cost of a completed call to the running totals. -/
def updateCostTracking (st : CostTracking) (inputTokens outputTokens : Nat)
    (now : JsDate) : CostTracking :=
  { totalCost := st.totalCost + calculateCost inputTokens outputTokens
    inputTokens := st.inputTokens + inputTokens
    outputTokens := st.outputTokens + outputTokens
    lastUpdated := now
    requestCount := st.requestCount + 1 }

/-- Function `loadCostTracking` (src/analysis/claudeClient.ts lines 44-67)
with the module state passed explicitly: `inMemory` is the module-level
`costTracking` variable, `persisted` the parsed file content (`none` when the
file is missing or unreadable, the catch branch), `now` the current date.
Returns the in-memory state after the call and the state written to disk
(`none` when nothing is written).  On a month/year rollover the code calls
`saveCostTracking()` without first resetting `costTracking`, so it keeps and
persists whatever is currently in memory. -/
def loadCostTracking (inMemory : CostTracking) (persisted : Option CostTracking)
    (now : JsDate) : CostTracking × Option CostTracking :=
  match persisted with
  | none => (inMemory, some inMemory)
  | some loadedData =>
    if loadedData.lastUpdated.month ≠ now.month ∨ loadedData.lastUpdated.year ≠ now.year then
      (inMemory, some inMemory)
    else (loadedData, none)

/-- Function `checkCostLimit` (src/analysis/claudeClient.ts lines 116-130),
applied to the ledger state after its initial `loadCostTracking()` call: the
configured monthly limit is silently raised to an effective floor of $50. -/
def checkCostLimit (st : CostTracking) (monthlyCostLimit : ℚ) : Bool :=
  let effectiveCostLimit := max monthlyCostLimit 50
  if st.totalCost ≥ effectiveCostLimit then false else true

/-- The strict budget check of the earlier revision of `checkCostLimit`
(src/unnamed/part_015 lines 90-99), which compares against the configured
`monthlyCostLimit` itself. -/
def checkCostLimitStrict (st : CostTracking) (monthlyCostLimit : ℚ) : Bool :=
  if st.totalCost ≥ monthlyCostLimit then false else true

/-- The per-batch loop of `analyzeArticlesBatch` (src/analysis/
relevanceAnalyzer.ts lines 114-191).  The Claude call `analyzeText` is an
oracle indexed by the batch number that also transforms the cost-ledger
state (it records usage internally on completed calls).  Returns the
accumulated per-article results in batch order, the final ledger state, and
the number of calls dispatched. -/
def batchResultsGo (oracle : Nat → CostTracking → CallOutcome × CostTracking) :
    Nat → List (List ArticleOutput) → CostTracking →
    List AnalyzedArticle × CostTracking × Nat
  | _, [], st => ([], st, 0)
  | i, b :: bs, st =>
    let oc := oracle i st
    let batchOut :=
      match oc.1 with
      | .ok resp => correlateBatch b (parseBatchAnalysisResult resp)
      | .err e => b.map fun a => ⟨a, 0, errorExplanation e⟩
    let rest := batchResultsGo oracle (i + 1) bs oc.2
    (batchOut ++ rest.1, rest.2.1, rest.2.2 + 1)

/-- Comparator of the final sort (src/analysis/relevanceAnalyzer.ts line
194): `(a, b) => b.relevanceScore - a.relevanceScore`, i.e. keep `a` before
`b` exactly when the comparator is nonpositive. -/
def scoreDescLe (a b : AnalyzedArticle) : Bool :=
  b.relevanceScore ≤ a.relevanceScore

/-- Function `analyzeArticlesBatch` (src/analysis/relevanceAnalyzer.ts lines
85-200): cap the batch size at 2, split into batches, run every batch
through the oracle, recover per-article results, and return them sorted by
relevance score descending (`Array.prototype.sort` is stable, modelled by
`List.mergeSort`).  The criteria only feed the prompt text, which the oracle
is free to ignore; prompt construction does not affect the modelled output. -/
def analyzeArticlesBatch (articles : List ArticleOutput) (criteria : String)
    (batchSize : Nat) (oracle : Nat → CostTracking → CallOutcome × CostTracking)
    (st : CostTracking) : List AnalyzedArticle × CostTracking × Nat :=
  let actualBatchSize := min batchSize 2
  let batches := chunks actualBatchSize articles
  let r := batchResultsGo oracle 0 batches st
  (r.1.mergeSort scoreDescLe, r.2)

/-- Deduplication loop of `deduplicateArticles` (src/utils/
deduplicationUtils.ts lines 58-114) written as a recursion threading the two
seen-sets.  `normUrl` and `contentHash` stand for `normalizeUrl` and
`calculateContentHash` (URL parsing and the content-normalisation regexes
are library-level string transformations; every claim about the loop holds
for arbitrary such functions).  For `ArticleOutput` the guard
`'content' in article && typeof content === 'string'` is always true, and
`!content || content.trim().length === 0` reduces to the trim test. -/
def dedupGo (normUrl contentHash : String → String) (useContentComparison : Bool)
    (seenUrls seenContentHashes : List String) :
    List ArticleOutput → List ArticleOutput
  | [] => []
  | article :: rest =>
    if article.link = "" then
      article :: dedupGo normUrl contentHash useContentComparison
        seenUrls seenContentHashes rest
    else
      let normalizedUrl := normUrl article.link
      if normalizedUrl ∈ seenUrls then
        dedupGo normUrl contentHash useContentComparison
          seenUrls seenContentHashes rest
      else if useContentComparison then
        if article.content.trim.length = 0 then
          article :: dedupGo normUrl contentHash useContentComparison
            (normalizedUrl :: seenUrls) seenContentHashes rest
        else
          let h := contentHash article.content
          if h ∈ seenContentHashes then
            dedupGo normUrl contentHash useContentComparison
              seenUrls seenContentHashes rest
          else
            article :: dedupGo normUrl contentHash useContentComparison
              (normalizedUrl :: seenUrls) (h :: seenContentHashes) rest
      else
        article :: dedupGo normUrl contentHash useContentComparison
          (normalizedUrl :: seenUrls) seenContentHashes rest

/-- Function `deduplicateArticles` (src/unnamed/part_003 lines 58-114):
run the loop from empty seen-sets. -/
def deduplicateArticles (normUrl contentHash : String → String)
    (useContentComparison : Bool) (articles : List ArticleOutput) :
    List ArticleOutput :=
  dedupGo normUrl contentHash useContentComparison [] [] articles

/-- Function `deduplicateScrapedArticles` (src/unnamed/part_003 lines
117-119): content comparison enabled. -/
def deduplicateScrapedArticles (normUrl contentHash : String → String)
    (articles : List ArticleOutput) : List ArticleOutput :=
  deduplicateArticles normUrl contentHash true articles

/-- The filtering step of `exportAnalyzedArticles` (dist/utils/
exportFormatter.js lines 52-56): the list handed to every format writer.
File-system side effects and the output path are elided. -/
def exportAnalyzedArticles (articles : List AnalyzedArticle)
    (minRelevanceScore : Nat) : List AnalyzedArticle :=
  articles.filter fun article => minRelevanceScore ≤ article.relevanceScore

/-- One record of the JSON export (dist/utils/exportFormatter.js lines
158-175). -/
structure JsonExportRecord where
  relevanceScore : Nat
  alertName : String
  title : String
  link : String
  relevanceExplanation : String
  content : Option String
deriving DecidableEq, Repr

/-- Function `exportToJson` (dist/utils/exportFormatter.js lines 158-175):
one record per article. -/
def exportToJson (articles : List AnalyzedArticle) (includeFullContent : Bool) :
    List JsonExportRecord :=
  articles.map fun a =>
    ⟨a.relevanceScore, a.alertName, a.title, a.link, a.relevanceExplanation,
      if includeFullContent then some a.content else none⟩

/-- JavaScript `value.replace(/"/g, String.fromCharCode(34, 34))`: double
every double-quote character (src/utils/manualCsvWriter.ts line 35). -/
def doubleQuotes : List Char → List Char
  | [] => []
  | c :: t => if c = '"' then '"' :: '"' :: doubleQuotes t else c :: doubleQuotes t

/-- Function `escapeCsvField` (src/utils/manualCsvWriter.ts lines 10-43) on
a string field (for strings, the `String(field)` conversion is the
identity): double embedded quotes, then wrap in quotes when the value
contains a comma, newline or quote. -/
def escapeCsvField (field : List Char) : List Char :=
  let value := doubleQuotes field
  if value.contains ',' || value.contains '\n' || value.contains '"' then
    '"' :: (value ++ ['"'])
  else value

/-- Modelled from the spec: the standard CSV quoting rules the exporter's
output is read back under.  A field wrapped in double quotes is decoded by
stripping the outer quotes and collapsing each doubled quote; any other
field is taken literally. -/
def collapseQuotes : List Char → List Char
  | [] => []
  | [c] => [c]
  | c :: d :: t =>
    if c = '"' ∧ d = '"' then '"' :: collapseQuotes t
    else c :: collapseQuotes (d :: t)

/-- Modelled from the spec: decode a single escaped CSV field under standard
CSV quoting rules (inverse direction of `escapeCsvField`): a field enclosed
in double quotes is decoded by stripping them and collapsing doubled quotes,
anything else is literal. -/
def decodeCsvField (s : List Char) : List Char :=
  match s with
  | [] => []
  | c :: t =>
    if c = '"' ∧ t ≠ [] ∧ t.getLast? = some '"' then collapseQuotes t.dropLast
    else c :: t

/-- CSV line assembly: `fields.join(String.fromCharCode(44))`
(src/utils/manualCsvWriter.ts line 49). -/
def joinComma : List (List Char) → List Char
  | [] => []
  | [f] => f
  | f :: fs => f ++ ',' :: joinComma fs

/-- Function `rowToCsvLine` (src/utils/manualCsvWriter.ts lines 48-50). -/
def rowToCsvLine (fields : List (List Char)) : List Char :=
  joinComma (fields.map escapeCsvField)

/-- The rows list built by `writeToCSV` (src/utils/manualCsvWriter.ts lines
64-81): the unescaped header line followed by one escaped line per data
row.  The file write is elided. -/
def writeToCSV (data : List (List (List Char))) (headers : List (List Char)) :
    List (List Char) :=
  joinComma headers :: data.map rowToCsvLine

/-- Field extraction of `writeAnalyzedArticlesToCsv` (src/utils/
manualCsvWriter.ts lines 135-152). -/
def analyzedArticleFields (a : AnalyzedArticle) : List (List Char) :=
  [(Nat.repr a.relevanceScore).data, a.alertName.data, a.title.data,
    a.link.data, a.relevanceExplanation.data, a.content.data,
    (a.error.getD "").data]

/-- Function `writeAnalyzedArticlesToCsv` (src/utils/manualCsvWriter.ts
lines 135-152) composed with `writeToCSV`: the list of CSV lines. -/
def writeAnalyzedArticlesToCsv (articles : List AnalyzedArticle) :
    List (List Char) :=
  writeToCSV (articles.map analyzedArticleFields)
    (["Relevance Score", "Alert Name", "Title", "Link",
      "Relevance Explanation", "Content", "Error"].map String.data)

/-! Termination of the scanner loop: the remainder strictly shrinks at each
match, so the fuel given to `splitPairsGo` in `splitOnTag` is never exhausted. -/

theorem tagNumAt_rest_lt {tag s : List Char} {ds rest : List Char}
    (h : tagNumAt tag s = some (ds, rest)) : rest.length < s.length := by
  simp only [tagNumAt] at h
  by_cases hp : tag.isPrefixOf s
  · rw [if_pos hp] at h
    by_cases he : (((s.drop tag.length).dropWhile jsSpace).takeWhile Char.isDigit).isEmpty
    · rw [if_pos he] at h; exact absurd h (by simp)
    · rw [if_neg he] at h
      simp only [Option.some.injEq, Prod.mk.injEq] at h
      obtain ⟨h4, h5⟩ := h
      have h1 : 1 ≤ (((s.drop tag.length).dropWhile jsSpace).takeWhile Char.isDigit).length := by
        cases hq : ((s.drop tag.length).dropWhile jsSpace).takeWhile Char.isDigit with
        | nil => rw [hq] at he; simp [List.isEmpty] at he
        | cons a l => simp [hq]
      have h2 : ((s.drop tag.length).dropWhile jsSpace).length ≤ s.length := by
        calc ((s.drop tag.length).dropWhile jsSpace).length
            ≤ (s.drop tag.length).length := (List.dropWhile_sublist _).length_le
          _ ≤ s.length := by simp [List.length_drop]
      have h3 : (((s.drop tag.length).dropWhile jsSpace).takeWhile Char.isDigit).length
          ≤ ((s.drop tag.length).dropWhile jsSpace).length :=
        (List.takeWhile_sublist _).length_le
      rw [← h5, List.length_drop]
      omega
  · rw [if_neg hp] at h; exact absurd h (by simp)

theorem findTagNum_rest_lt {tag : List Char} :
    ∀ {s pre ds rest : List Char},
      findTagNum tag s = some (pre, ds, rest) → rest.length < s.length := by
  intro s
  induction s with
  | nil => intro pre ds rest h; simp [findTagNum] at h
  | cons c t ih =>
    intro pre ds rest h
    unfold findTagNum at h
    cases ha : tagNumAt tag (c :: t) with
    | some p =>
      rw [ha] at h
      obtain ⟨ds0, rest0⟩ := p
      simp only [Option.some.injEq, Prod.mk.injEq] at h
      have := tagNumAt_rest_lt ha
      rw [← h.2.2]
      exact this
    | none =>
      rw [ha] at h
      cases hb : findTagNum tag t with
      | some q =>
        rw [hb] at h
        obtain ⟨pre0, ds0, rest0⟩ := q
        simp only [Option.some.injEq, Prod.mk.injEq] at h
        have := ih hb
        rw [← h.2.2]
        exact Nat.lt_succ_of_lt this
      | none => rw [hb] at h; exact absurd h (by simp)

theorem splitPairsGo_fuel_irrelevant (tag : List Char) :
    ∀ (fuel fuel' : Nat) (ds rest : List Char), rest.length < fuel →
      rest.length < fuel' →
      splitPairsGo tag fuel ds rest = splitPairsGo tag fuel' ds rest := by
  intro fuel
  induction fuel with
  | zero => intro fuel' ds rest h; omega
  | succ a ih =>
    intro fuel' ds rest h h'
    cases fuel' with
    | zero => omega
    | succ b =>
      simp only [splitPairsGo]
      cases hf : findTagNum tag rest with
      | none => rfl
      | some q =>
        obtain ⟨pre, ds2, rest2⟩ := q
        have hlt := findTagNum_rest_lt hf
        dsimp only
        rw [ih b ds2 rest2 (by omega) (by omega)]

theorem correlateBatch_length (batch : List ArticleOutput)
    (m : List (List Char × ScoreResult)) :
    (correlateBatch batch m).length = batch.length := by
  simp [correlateBatch, List.enum]

theorem correlateBatch_map_toOutput (batch : List ArticleOutput)
    (m : List (List Char × ScoreResult)) :
    (correlateBatch batch m).map (fun a => a.toArticleOutput) = batch := by
  unfold correlateBatch
  rw [List.map_map]
  have h : ((fun a : AnalyzedArticle => a.toArticleOutput) ∘
      (fun p : Nat × ArticleOutput =>
        match List.lookup (Nat.repr (p.1 + 1)).data m with
        | some r => (⟨p.2, r.score, r.explanation⟩ : AnalyzedArticle)
        | none => ⟨p.2, 0, failedExplanation⟩)) = Prod.snd := by
    funext p
    simp only [Function.comp_apply]
    cases List.lookup (Nat.repr (p.1 + 1)).data m <;> rfl
  rw [h, List.enum_map_snd]

theorem chunksF_flatten {k : Nat} (hk : 1 ≤ k) :
    ∀ (fuel : Nat) (l : List ArticleOutput), l.length ≤ fuel →
      (chunksF fuel k l).flatten = l := by
  intro fuel
  induction fuel with
  | zero =>
    intro l h
    cases l with
    | nil => rfl
    | cons c t => simp at h
  | succ n ih =>
    intro l h
    cases l with
    | nil => rfl
    | cons c t =>
      simp only [chunksF, List.flatten_cons]
      rw [ih ((c :: t).drop k) (by
        have h2 := h
        simp only [List.length_drop, List.length_cons] at h2 ⊢
        omega)]
      exact List.take_append_drop k (c :: t)

theorem chunks_flatten {k : Nat} (hk : 1 ≤ k) (l : List ArticleOutput) :
    (chunks k l).flatten = l :=
  chunksF_flatten hk l.length l le_rfl

theorem batchResultsGo_map_toOutput
    (oracle : Nat → CostTracking → CallOutcome × CostTracking) :
    ∀ (bs : List (List ArticleOutput)) (i : Nat) (st : CostTracking),
      ((batchResultsGo oracle i bs st).1.map (fun a => a.toArticleOutput))
        = bs.flatten := by
  intro bs
  induction bs with
  | nil => intro i st; rfl
  | cons b bs ih =>
    intro i st
    simp only [batchResultsGo, List.flatten_cons, List.map_append]
    rw [ih]
    congr 1
    cases (oracle i st).1 with
    | ok resp => exact correlateBatch_map_toOutput b _
    | err e =>
      rw [List.map_map]
      exact List.map_id _

/-- C10: on the empty article list, the batch analysis returns the empty
list, dispatches no call to the inference oracle, and leaves the cost-ledger
state untouched. -/
theorem C10_empty_input_is_noop (criteria : String) (batchSize : Nat)
    (oracle : Nat → CostTracking → CallOutcome × CostTracking)
    (st : CostTracking) :
    analyzeArticlesBatch [] criteria batchSize oracle st = ([], st, 0) := by
  simp [analyzeArticlesBatch, chunks, chunksF, batchResultsGo]

/-- C1: for every article list, rubric and oracle behaviour (any response,
including null, and any thrown batch error), `analyzeArticlesBatch` emits
exactly one record per input article: the output has the input's length and
its underlying articles are a permutation of the input. -/
theorem C1_analysis_never_drops_articles (articles : List ArticleOutput)
    (criteria : String) (batchSize : Nat)
    (oracle : Nat → CostTracking → CallOutcome × CostTracking)
    (st : CostTracking) (hbs : 1 ≤ batchSize) :
    (analyzeArticlesBatch articles criteria batchSize oracle st).1.length
        = articles.length ∧
    ((analyzeArticlesBatch articles criteria batchSize oracle st).1.map
        (fun a => a.toArticleOutput)).Perm articles := by
  have hmap : ((batchResultsGo oracle 0 (chunks (min batchSize 2) articles) st).1.map
      (fun a => a.toArticleOutput)) = articles := by
    rw [batchResultsGo_map_toOutput]
    exact chunks_flatten (by omega) articles
  have hpre : (batchResultsGo oracle 0 (chunks (min batchSize 2) articles) st).1.length
      = articles.length := by
    have := congrArg List.length hmap
    simpa using this
  constructor
  · show ((batchResultsGo oracle 0 (chunks (min batchSize 2) articles) st).1.mergeSort
        scoreDescLe).length = articles.length
    rw [List.length_mergeSort]
    exact hpre
  · show (((batchResultsGo oracle 0 (chunks (min batchSize 2) articles) st).1.mergeSort
        scoreDescLe).map (fun a => a.toArticleOutput)).Perm articles
    have h1 : (((batchResultsGo oracle 0 (chunks (min batchSize 2) articles) st).1.mergeSort
        scoreDescLe).map (fun a => a.toArticleOutput)).Perm
          ((batchResultsGo oracle 0 (chunks (min batchSize 2) articles) st).1.map
            (fun a => a.toArticleOutput)) :=
      (List.mergeSort_perm _ _).map _
    rw [hmap] at h1
    exact h1

/-- Witness for C1 at a concrete two-article input whose single batch call
throws. -/
theorem C1_analysis_never_drops_articles_witness :
    1 ≤ 2 ∧
    (analyzeArticlesBatch
        [⟨"a1", "t1", "l1", "c1", none⟩, ⟨"a2", "t2", "l2", "c2", none⟩]
        "rubric" 2 (fun _ st => (.err "network failure", st))
        ⟨0, 0, 0, ⟨0, 2026⟩, 0⟩).1.length = 2 :=
  ⟨by decide,
    (C1_analysis_never_drops_articles
      [⟨"a1", "t1", "l1", "c1", none⟩, ⟨"a2", "t2", "l2", "c2", none⟩]
      "rubric" 2 (fun _ st => (.err "network failure", st))
      ⟨0, 0, 0, ⟨0, 2026⟩, 0⟩ (by decide)).1⟩

theorem parseSection_score_le (content : List Char) :
    (parseSection content).score ≤ 100 :=
  Nat.min_le_right _ _

theorem mapSet_score_le {m : List (List Char × ScoreResult)} {k : List Char}
    {v : ScoreResult} (hm : ∀ q ∈ m, q.2.score ≤ 100) (hv : v.score ≤ 100) :
    ∀ q ∈ mapSet m k v, q.2.score ≤ 100 := by
  induction m with
  | nil =>
    intro q hq
    simp only [mapSet, List.mem_singleton] at hq
    rw [hq]
    exact hv
  | cons p t ih =>
    intro q hq
    obtain ⟨k2, v2⟩ := p
    simp only [mapSet] at hq
    by_cases hk : k2 = k
    · rw [if_pos hk] at hq
      rcases List.mem_cons.mp hq with h | h
      · rw [h]; exact hv
      · exact hm q (List.mem_cons_of_mem _ h)
    · rw [if_neg hk] at hq
      rcases List.mem_cons.mp hq with h | h
      · rw [h]; exact hm (k2, v2) (List.mem_cons_self _ _)
      · exact ih (fun q hq => hm q (List.mem_cons_of_mem _ hq)) q h

theorem parseFoldl_score_le :
    ∀ (ps : List (List Char × List Char)) (m0 : List (List Char × ScoreResult)),
      (∀ q ∈ m0, q.2.score ≤ 100) →
      ∀ q ∈ ps.foldl (fun m p => mapSet m (jsTrim p.1) (parseSection p.2)) m0,
        q.2.score ≤ 100 := by
  intro ps
  induction ps with
  | nil => intro m0 hm0 q hq; exact hm0 q hq
  | cons p t ih =>
    intro m0 hm0 q hq
    simp only [List.foldl_cons] at hq
    exact ih _ (mapSet_score_le hm0 (parseSection_score_le _)) q hq

theorem parse_score_le (result : Option (List Char)) :
    ∀ q ∈ parseBatchAnalysisResult result, q.2.score ≤ 100 := by
  cases result with
  | none => intro q hq; simp [parseBatchAnalysisResult] at hq
  | some res =>
    exact parseFoldl_score_le (splitOnTag idTag res) [] (by simp)

theorem lookup_mem {m : List (List Char × ScoreResult)} {k : List Char}
    {r : ScoreResult} (h : List.lookup k m = some r) : (k, r) ∈ m := by
  obtain ⟨l1, l2, rfl, -⟩ := List.lookup_eq_some_iff.mp h
  simp

theorem correlateBatch_score_le {batch : List ArticleOutput}
    {m : List (List Char × ScoreResult)} (hm : ∀ q ∈ m, q.2.score ≤ 100) :
    ∀ a ∈ correlateBatch batch m, a.relevanceScore ≤ 100 := by
  intro a ha
  unfold correlateBatch at ha
  obtain ⟨p, hp, hpa⟩ := List.mem_map.mp ha
  cases hl : List.lookup (Nat.repr (p.1 + 1)).data m with
  | some r =>
    rw [hl] at hpa
    rw [← hpa]
    exact hm _ (lookup_mem hl)
  | none =>
    rw [hl] at hpa
    rw [← hpa]
    exact Nat.zero_le _

theorem batchResultsGo_score_le
    (oracle : Nat → CostTracking → CallOutcome × CostTracking) :
    ∀ (bs : List (List ArticleOutput)) (i : Nat) (st : CostTracking),
      ∀ a ∈ (batchResultsGo oracle i bs st).1, a.relevanceScore ≤ 100 := by
  intro bs
  induction bs with
  | nil => intro i st a ha; simp [batchResultsGo] at ha
  | cons b bs ih =>
    intro i st a ha
    simp only [batchResultsGo] at ha
    rcases List.mem_append.mp ha with h | h
    · cases hc : (oracle i st).1 with
      | ok resp =>
        rw [hc] at h
        exact correlateBatch_score_le (parse_score_le resp) a h
      | err e =>
        rw [hc] at h
        obtain ⟨x, hx, hxa⟩ := List.mem_map.mp h
        rw [← hxa]
        exact Nat.zero_le _
    · exact ih (i + 1) _ a h

/-- C2: every score stored by the batch-response parser, for every raw
response text (out-of-range, huge or missing numbers included), lies in
[0, 100]; consequently every relevanceScore in the analysis output lies in
[0, 100]. -/
theorem C2_scores_clamped :
    (∀ (result : Option (List Char)), ∀ q ∈ parseBatchAnalysisResult result,
        0 ≤ q.2.score ∧ q.2.score ≤ 100) ∧
    (∀ (articles : List ArticleOutput) (criteria : String) (batchSize : Nat)
        (oracle : Nat → CostTracking → CallOutcome × CostTracking)
        (st : CostTracking),
      ∀ a ∈ (analyzeArticlesBatch articles criteria batchSize oracle st).1,
        0 ≤ a.relevanceScore ∧ a.relevanceScore ≤ 100) := by
  constructor
  · intro result q hq
    exact ⟨Nat.zero_le _, parse_score_le result q hq⟩
  · intro articles criteria batchSize oracle st a ha
    refine ⟨Nat.zero_le _, ?_⟩
    have ha2 : a ∈ (batchResultsGo oracle 0 (chunks (min batchSize 2) articles) st).1 :=
      List.mem_mergeSort.mp ha
    exact batchResultsGo_score_le oracle _ 0 st a ha2

/-- Witness for C2 at a concrete response whose raw score 250 is out of
range: the stored score is clamped to 100. -/
theorem C2_scores_clamped_witness :
    ("1".data, (⟨100, "x"⟩ : ScoreResult)) ∈
        parseBatchAnalysisResult
          (some "ARTICLE_ID: 1 RELEVANCE_SCORE: 250 EXPLANATION: x".data) ∧
      (0 ≤ (100 : Nat) ∧ (100 : Nat) ≤ 100) :=
  ⟨by decide,
    C2_scores_clamped.1
      (some "ARTICLE_ID: 1 RELEVANCE_SCORE: 250 EXPLANATION: x".data)
      ("1".data, ⟨100, "x"⟩) (by decide)⟩

theorem correlateBatch_getElem? (batch : List ArticleOutput)
    (m : List (List Char × ScoreResult)) (i : Nat) (hi : i < batch.length) :
    (correlateBatch batch m)[i]? =
      some (match List.lookup (Nat.repr (i + 1)).data m with
        | some r => (⟨batch.get ⟨i, hi⟩, r.score, r.explanation⟩ : AnalyzedArticle)
        | none => ⟨batch.get ⟨i, hi⟩, 0, failedExplanation⟩) := by
  unfold correlateBatch
  rw [List.getElem?_map, List.enum, List.getElem?_enumFrom,
    List.getElem?_eq_getElem hi]
  simp

/-- C4: for every batch and every response in which the marker of expected
in-batch id `i + 1` never produces a parse entry (in particular when
`ARTICLE_ID:` followed by that id is entirely absent from the text), the
parse-and-correlate step still returns exactly one result per batch member:
the article with the absent id gets score 0 and the extraction-failure
diagnostic, and every id present in the parsed map keeps its extracted score
and explanation. -/
theorem C4_missing_id_still_produces_result (batch : List ArticleOutput)
    (response : List Char) (i : Nat) (hi : i < batch.length)
    (habsent : List.lookup (Nat.repr (i + 1)).data
        (parseBatchAnalysisResult (some response)) = none) :
    (correlateBatch batch (parseBatchAnalysisResult (some response))).length
        = batch.length ∧
    (correlateBatch batch (parseBatchAnalysisResult (some response)))[i]? =
      some ⟨batch.get ⟨i, hi⟩, 0, failedExplanation⟩ ∧
    ∀ (j : Nat) (hj : j < batch.length) (r : ScoreResult),
      List.lookup (Nat.repr (j + 1)).data
          (parseBatchAnalysisResult (some response)) = some r →
      (correlateBatch batch (parseBatchAnalysisResult (some response)))[j]? =
        some ⟨batch.get ⟨j, hj⟩, r.score, r.explanation⟩ := by
  refine ⟨correlateBatch_length _ _, ?_, ?_⟩
  · rw [correlateBatch_getElem? batch _ i hi, habsent]
  · intro j hj r hr
    rw [correlateBatch_getElem? batch _ j hj, hr]

/-- Witness for C4: a two-article batch whose response mentions only
ARTICLE_ID 1; article 2 is still returned, scored 0 with the diagnostic. -/
theorem C4_missing_id_still_produces_result_witness :
    (1 : Nat) < 2 ∧
    List.lookup (Nat.repr 2).data
        (parseBatchAnalysisResult
          (some "ARTICLE_ID: 1 RELEVANCE_SCORE: 7 EXPLANATION: ok".data)) = none ∧
    (correlateBatch
        [⟨"a1", "t1", "l1", "c1", none⟩, ⟨"a2", "t2", "l2", "c2", none⟩]
        (parseBatchAnalysisResult
          (some "ARTICLE_ID: 1 RELEVANCE_SCORE: 7 EXPLANATION: ok".data)))[1]? =
      some ⟨⟨"a2", "t2", "l2", "c2", none⟩, 0, failedExplanation⟩ :=
  ⟨by decide, by decide,
    (C4_missing_id_still_produces_result
      [⟨"a1", "t1", "l1", "c1", none⟩, ⟨"a2", "t2", "l2", "c2", none⟩]
      "ARTICLE_ID: 1 RELEVANCE_SCORE: 7 EXPLANATION: ok".data 1 (by decide)
      (by decide)).2.1⟩

/-- C3: the claim (and the spec) say the budget check returns false iff the
recorded total cost reaches the configured monthlyCostLimit, so with a limit
of $0.01 and a completed positive-cost call it must return false.  The code
(src/analysis/claudeClient.ts line 121) silently raises the effective limit
to max(limit, 50): after a recorded call costing $0.02 (40000 input and 8000
output tokens) it still returns true and lets the next call proceed.  The
strict check of the earlier revision behaves exactly as the claim states;
the spec itself flags the relaxed variant as a latent policy bug. -/
theorem C3_cost_limit_floor_defeats_budget :
    0 < (updateCostTracking ⟨0, 0, 0, ⟨0, 2026⟩, 0⟩ 40000 8000 ⟨0, 2026⟩).totalCost ∧
    checkCostLimit (updateCostTracking ⟨0, 0, 0, ⟨0, 2026⟩, 0⟩ 40000 8000 ⟨0, 2026⟩)
        (1 / 100) = true ∧
    checkCostLimitStrict (updateCostTracking ⟨0, 0, 0, ⟨0, 2026⟩, 0⟩ 40000 8000 ⟨0, 2026⟩)
        (1 / 100) = false := by
  refine ⟨?_, ?_, ?_⟩ <;>
    norm_num [updateCostTracking, calculateCost, checkCostLimit, checkCostLimitStrict]

/-- C5: the claim says a persisted ledger whose month or year differs from
the current date loads as all-zero counters, persisted immediately.  The
rollover branch (src/analysis/claudeClient.ts lines 56-59) saves the current
in-memory state without resetting it: when the in-memory ledger already
carries usage (a process that crossed the month boundary after recording a
call), load keeps and persists the non-zero totals.  The counters only come
out zero when the in-memory state happens to be the zero-initialised module
default, as the adjacent comment (Save with default values) assumes. -/
theorem C5_rollover_keeps_in_memory_state :
    loadCostTracking ⟨5, 100, 200, ⟨0, 2026⟩, 3⟩
        (some ⟨5, 100, 200, ⟨0, 2026⟩, 3⟩) ⟨1, 2026⟩ =
      (⟨5, 100, 200, ⟨0, 2026⟩, 3⟩, some ⟨5, 100, 200, ⟨0, 2026⟩, 3⟩) ∧
    (5 : ℚ) ≠ 0 ∧
    loadCostTracking ⟨0, 0, 0, ⟨1, 2026⟩, 0⟩
        (some ⟨5, 100, 200, ⟨0, 2026⟩, 3⟩) ⟨1, 2026⟩ =
      (⟨0, 0, 0, ⟨1, 2026⟩, 0⟩, some ⟨0, 0, 0, ⟨1, 2026⟩, 0⟩) := by
  refine ⟨?_, by norm_num, ?_⟩ <;> simp [loadCostTracking]

/-- C8: the export operation filters by minRelevanceScore with an inclusive
lower bound before rendering: every exported article meets the bound, an
article is exported iff it is an input article meeting the bound, and both
the JSON and the CSV renderers emit exactly one record (plus the one CSV
header line) per filtered article. -/
theorem C8_export_filters_by_min_score (articles : List AnalyzedArticle)
    (minRelevanceScore : Nat) (includeFullContent : Bool) :
    (∀ a ∈ exportAnalyzedArticles articles minRelevanceScore,
        minRelevanceScore ≤ a.relevanceScore) ∧
    (∀ a, a ∈ exportAnalyzedArticles articles minRelevanceScore ↔
        a ∈ articles ∧ minRelevanceScore ≤ a.relevanceScore) ∧
    (exportToJson (exportAnalyzedArticles articles minRelevanceScore)
        includeFullContent).length
      = (exportAnalyzedArticles articles minRelevanceScore).length ∧
    (writeAnalyzedArticlesToCsv (exportAnalyzedArticles articles minRelevanceScore)).length
      = (exportAnalyzedArticles articles minRelevanceScore).length + 1 := by
  refine ⟨?_, ?_, ?_, ?_⟩
  · intro a ha
    have := List.of_mem_filter ha
    simpa using this
  · intro a
    rw [exportAnalyzedArticles, List.mem_filter]
    simp
  · simp [exportToJson]
  · simp [writeAnalyzedArticlesToCsv, writeToCSV]

/-- Witness for C8 at a concrete list with one article above and one below
the threshold 50. -/
theorem C8_export_filters_by_min_score_witness :
    (⟨⟨"a", "t", "l", "c", none⟩, 60, "e"⟩ : AnalyzedArticle) ∈
        exportAnalyzedArticles
          [⟨⟨"a", "t", "l", "c", none⟩, 60, "e"⟩,
            ⟨⟨"b", "u", "m", "d", none⟩, 40, "f"⟩] 50 ∧
      (50 : Nat) ≤ 60 :=
  ⟨by decide,
    (C8_export_filters_by_min_score
      [⟨⟨"a", "t", "l", "c", none⟩, 60, "e"⟩,
        ⟨⟨"b", "u", "m", "d", none⟩, 40, "f"⟩] 50 true).1
      ⟨⟨"a", "t", "l", "c", none⟩, 60, "e"⟩ (by decide)⟩

theorem dedupGo_idem (normUrl contentHash : String → String)
    (useContentComparison : Bool) :
    ∀ (l : List ArticleOutput) (seenUrls seenContentHashes : List String),
      dedupGo normUrl contentHash useContentComparison seenUrls seenContentHashes
          (dedupGo normUrl contentHash useContentComparison seenUrls
            seenContentHashes l)
        = dedupGo normUrl contentHash useContentComparison seenUrls
            seenContentHashes l := by
  intro l
  induction l with
  | nil => intro u hs; rfl
  | cons article rest ih =>
    intro u hs
    by_cases h1 : article.link = ""
    · have hstep : dedupGo normUrl contentHash useContentComparison u hs
          (article :: rest)
          = article :: dedupGo normUrl contentHash useContentComparison u hs rest := by
        simp only [dedupGo]; rw [if_pos h1]
      rw [hstep]
      have houter : dedupGo normUrl contentHash useContentComparison u hs
          (article :: dedupGo normUrl contentHash useContentComparison u hs rest)
          = article :: dedupGo normUrl contentHash useContentComparison u hs
              (dedupGo normUrl contentHash useContentComparison u hs rest) := by
        simp only [dedupGo]; rw [if_pos h1]
      rw [houter, ih u hs]
    · by_cases h2 : normUrl article.link ∈ u
      · have hstep : dedupGo normUrl contentHash useContentComparison u hs
            (article :: rest)
            = dedupGo normUrl contentHash useContentComparison u hs rest := by
          simp only [dedupGo]; rw [if_neg h1, if_pos h2]
        rw [hstep, ih u hs]
      · by_cases hU : useContentComparison = true
        · by_cases h4 : article.content.trim.length = 0
          · have hstep : dedupGo normUrl contentHash useContentComparison u hs
                (article :: rest)
                = article :: dedupGo normUrl contentHash useContentComparison
                    (normUrl article.link :: u) hs rest := by
              simp only [dedupGo]; rw [if_neg h1, if_neg h2, if_pos hU, if_pos h4]
            rw [hstep]
            have houter : dedupGo normUrl contentHash useContentComparison u hs
                (article :: dedupGo normUrl contentHash useContentComparison
                  (normUrl article.link :: u) hs rest)
                = article :: dedupGo normUrl contentHash useContentComparison
                    (normUrl article.link :: u) hs
                    (dedupGo normUrl contentHash useContentComparison
                      (normUrl article.link :: u) hs rest) := by
              simp only [dedupGo]; rw [if_neg h1, if_neg h2, if_pos hU, if_pos h4]
            rw [houter, ih (normUrl article.link :: u) hs]
          · by_cases h5 : contentHash article.content ∈ hs
            · have hstep : dedupGo normUrl contentHash useContentComparison u hs
                  (article :: rest)
                  = dedupGo normUrl contentHash useContentComparison u hs rest := by
                simp only [dedupGo]
                rw [if_neg h1, if_neg h2, if_pos hU, if_neg h4, if_pos h5]
              rw [hstep, ih u hs]
            · have hstep : dedupGo normUrl contentHash useContentComparison u hs
                  (article :: rest)
                  = article :: dedupGo normUrl contentHash useContentComparison
                      (normUrl article.link :: u)
                      (contentHash article.content :: hs) rest := by
                simp only [dedupGo]
                rw [if_neg h1, if_neg h2, if_pos hU, if_neg h4, if_neg h5]
              rw [hstep]
              have houter : dedupGo normUrl contentHash useContentComparison u hs
                  (article :: dedupGo normUrl contentHash useContentComparison
                    (normUrl article.link :: u)
                    (contentHash article.content :: hs) rest)
                  = article :: dedupGo normUrl contentHash useContentComparison
                      (normUrl article.link :: u)
                      (contentHash article.content :: hs)
                      (dedupGo normUrl contentHash useContentComparison
                        (normUrl article.link :: u)
                        (contentHash article.content :: hs) rest) := by
                simp only [dedupGo]
                rw [if_neg h1, if_neg h2, if_pos hU, if_neg h4, if_neg h5]
              rw [houter,
                ih (normUrl article.link :: u) (contentHash article.content :: hs)]
        · have hstep : dedupGo normUrl contentHash useContentComparison u hs
              (article :: rest)
              = article :: dedupGo normUrl contentHash useContentComparison
                  (normUrl article.link :: u) hs rest := by
            simp only [dedupGo]; rw [if_neg h1, if_neg h2, if_neg hU]
          rw [hstep]
          have houter : dedupGo normUrl contentHash useContentComparison u hs
              (article :: dedupGo normUrl contentHash useContentComparison
                (normUrl article.link :: u) hs rest)
              = article :: dedupGo normUrl contentHash useContentComparison
                  (normUrl article.link :: u) hs
                  (dedupGo normUrl contentHash useContentComparison
                    (normUrl article.link :: u) hs rest) := by
            simp only [dedupGo]; rw [if_neg h1, if_neg h2, if_neg hU]
          rw [houter, ih (normUrl article.link :: u) hs]

/-- C7: deduplication is idempotent for every URL-normalisation and
content-hash function, with or without content comparison (in particular for
`deduplicateScrapedArticles`, which fixes content comparison to true):
running `deduplicateArticles` on its own output returns that output. -/
theorem C7_dedupe_idempotent (normUrl contentHash : String → String)
    (useContentComparison : Bool) (x : List ArticleOutput) :
    deduplicateArticles normUrl contentHash useContentComparison
        (deduplicateArticles normUrl contentHash useContentComparison x)
      = deduplicateArticles normUrl contentHash useContentComparison x :=
  dedupGo_idem normUrl contentHash useContentComparison x [] []

theorem doubleQuotes_nil_iff {s : List Char} : doubleQuotes s = [] ↔ s = [] := by
  cases s with
  | nil => simp [doubleQuotes]
  | cons c t =>
    by_cases h : c = '"' <;> simp [doubleQuotes, h]

theorem mem_doubleQuotes {c : Char} : ∀ {s : List Char}, c ∈ doubleQuotes s ↔ c ∈ s := by
  intro s
  induction s with
  | nil => simp [doubleQuotes]
  | cons a t ih =>
    by_cases h : a = '"'
    · subst h
      rw [show doubleQuotes ('"' :: t) = '"' :: '"' :: doubleQuotes t from by
        simp [doubleQuotes]]
      simp only [List.mem_cons, ih]
      tauto
    · rw [show doubleQuotes (a :: t) = a :: doubleQuotes t from by
        simp [doubleQuotes, h]]
      simp only [List.mem_cons, ih]

theorem doubleQuotes_eq_self {s : List Char} (h : '"' ∉ s) : doubleQuotes s = s := by
  induction s with
  | nil => rfl
  | cons a t ih =>
    have ha : ¬(a = '"') := fun e => h (e ▸ List.mem_cons_self _ _)
    simp only [doubleQuotes, if_neg ha]
    rw [ih (fun hm => h (List.mem_cons_of_mem _ hm))]

theorem collapseQuotes_doubleQuotes : ∀ s : List Char,
    collapseQuotes (doubleQuotes s) = s := by
  intro s
  induction s with
  | nil => rfl
  | cons a t ih =>
    by_cases h : a = '"'
    · subst h
      rw [show doubleQuotes ('"' :: t) = '"' :: '"' :: doubleQuotes t from by
        simp [doubleQuotes]]
      rw [show collapseQuotes ('"' :: '"' :: doubleQuotes t)
          = '"' :: collapseQuotes (doubleQuotes t) from by
        simp [collapseQuotes]]
      rw [ih]
    · rw [show doubleQuotes (a :: t) = a :: doubleQuotes t from by
        simp [doubleQuotes, h]]
      cases hdq : doubleQuotes t with
      | nil =>
        have ht : t = [] := doubleQuotes_nil_iff.mp hdq
        subst ht
        rfl
      | cons d t2 =>
        rw [show collapseQuotes (a :: d :: t2) = a :: collapseQuotes (d :: t2) from by
          simp [collapseQuotes, h]]
        rw [← hdq, ih]

/-- C9: escaping a CSV field doubles embedded quotes and wraps the field in
quotes whenever it contains a comma, newline or double quote, and decoding
the escaped field under standard CSV quoting rules recovers the original
string exactly. -/
theorem C9_csv_escape_invertible (s : List Char) :
    decodeCsvField (escapeCsvField s) = s ∧
    ((',' ∈ s ∨ '\n' ∈ s ∨ '"' ∈ s) →
      escapeCsvField s = '"' :: (doubleQuotes s ++ ['"'])) := by
  have hcond : (((doubleQuotes s).contains ',' || (doubleQuotes s).contains '\n'
      || (doubleQuotes s).contains '"') = true)
      ↔ (',' ∈ s ∨ '\n' ∈ s ∨ '"' ∈ s) := by
    simp [List.elem_iff, mem_doubleQuotes, or_assoc]
  by_cases hor : ',' ∈ s ∨ '\n' ∈ s ∨ '"' ∈ s
  · have hesc : escapeCsvField s = '"' :: (doubleQuotes s ++ ['"']) := by
      unfold escapeCsvField
      rw [if_pos (hcond.mpr hor)]
    refine ⟨?_, fun _ => hesc⟩
    have hdec : decodeCsvField ('"' :: (doubleQuotes s ++ ['"']))
        = collapseQuotes (doubleQuotes s ++ ['"']).dropLast := by
      simp [decodeCsvField, List.getLast?_concat]
    rw [hesc, hdec, List.dropLast_concat]
    exact collapseQuotes_doubleQuotes s
  · have hnq : '"' ∉ s := fun hm => hor (Or.inr (Or.inr hm))
    have hself : doubleQuotes s = s := doubleQuotes_eq_self hnq
    have hesc : escapeCsvField s = s := by
      unfold escapeCsvField
      rw [if_neg (fun hb => hor (hcond.mp hb))]
      exact hself
    refine ⟨?_, fun hab => absurd hab hor⟩
    rw [hesc]
    cases s with
    | nil => rfl
    | cons c t =>
      have hcq : ¬(c = '"') := fun e => hnq (e ▸ List.mem_cons_self _ _)
      simp [decodeCsvField, hcq]

/-- Witness for C9 at a field containing both a comma and a quote. -/
theorem C9_csv_escape_invertible_witness :
    ((',' ∈ "a,\"b".data ∨ '\n' ∈ "a,\"b".data ∨ '"' ∈ "a,\"b".data) ∧
      escapeCsvField "a,\"b".data = '"' :: (doubleQuotes "a,\"b".data ++ ['"'])) :=
  ⟨Or.inl (by decide), (C9_csv_escape_invertible "a,\"b".data).2 (Or.inl (by decide))⟩

theorem scoreDescLe_trans (a b c : AnalyzedArticle) :
    scoreDescLe a b = true → scoreDescLe b c = true → scoreDescLe a c = true := by
  simp only [scoreDescLe, decide_eq_true_eq]
  omega

theorem scoreDescLe_total (a b : AnalyzedArticle) :
    (scoreDescLe a b || scoreDescLe b a) = true := by
  simp only [scoreDescLe, Bool.or_eq_true, decide_eq_true_eq]
  omega

theorem mergeSort_filter_score (pre : List AnalyzedArticle) (s : Nat) :
    (pre.mergeSort scoreDescLe).filter (fun a => a.relevanceScore == s)
      = pre.filter (fun a => a.relevanceScore == s) := by
  have hpw : (pre.filter (fun a => a.relevanceScore == s)).Pairwise
      (fun a b => scoreDescLe a b = true) := by
    apply List.pairwise_of_forall_mem_list
    intro a ha b hb
    have ha2 := List.of_mem_filter ha
    have hb2 := List.of_mem_filter hb
    simp only [beq_iff_eq] at ha2 hb2
    simp [scoreDescLe, ha2, hb2]
  have hsub : (pre.filter (fun a => a.relevanceScore == s)).Sublist
      (pre.mergeSort scoreDescLe) :=
    List.sublist_mergeSort scoreDescLe_trans scoreDescLe_total hpw
      (List.filter_sublist _)
  have heq : (pre.filter (fun a => a.relevanceScore == s)).filter
      (fun a => a.relevanceScore == s) = pre.filter (fun a => a.relevanceScore == s) := by
    apply List.filter_eq_self.mpr
    intro a ha
    exact (List.mem_filter.mp ha).2
  have hsub2 := List.Sublist.filter (fun a => a.relevanceScore == s) hsub
  rw [heq] at hsub2
  have hperm : ((pre.mergeSort scoreDescLe).filter
      (fun a => a.relevanceScore == s)).Perm
        (pre.filter (fun a => a.relevanceScore == s)) :=
    (List.mergeSort_perm pre scoreDescLe).filter _
  exact (hsub2.eq_of_length hperm.length_eq.symm).symm

/-- C6: the analysis output is sorted by relevanceScore descending, articles
with equal scores keep their relative order from the pre-sort per-article
results, and those pre-sort results are in input order (their underlying
articles are exactly the input list), so ties preserve input order. -/
theorem C6_output_sorted_and_stable (articles : List ArticleOutput)
    (criteria : String) (batchSize : Nat)
    (oracle : Nat → CostTracking → CallOutcome × CostTracking)
    (st : CostTracking) (hbs : 1 ≤ batchSize) :
    List.Pairwise (fun a b : AnalyzedArticle => b.relevanceScore ≤ a.relevanceScore)
      (analyzeArticlesBatch articles criteria batchSize oracle st).1 ∧
    (∀ s : Nat,
      (analyzeArticlesBatch articles criteria batchSize oracle st).1.filter
          (fun a => a.relevanceScore == s)
        = (batchResultsGo oracle 0 (chunks (min batchSize 2) articles) st).1.filter
          (fun a => a.relevanceScore == s)) ∧
    ((batchResultsGo oracle 0 (chunks (min batchSize 2) articles) st).1.map
        (fun a => a.toArticleOutput)) = articles := by
  refine ⟨?_, ?_, ?_⟩
  · have hs := List.sorted_mergeSort scoreDescLe_trans scoreDescLe_total
      (batchResultsGo oracle 0 (chunks (min batchSize 2) articles) st).1
    show List.Pairwise _
      ((batchResultsGo oracle 0 (chunks (min batchSize 2) articles) st).1.mergeSort
        scoreDescLe)
    exact hs.imp (fun h => by simpa [scoreDescLe] using h)
  · intro s
    exact mergeSort_filter_score _ s
  · rw [batchResultsGo_map_toOutput]
    exact chunks_flatten (by omega) articles

/-- Witness for C6 at a concrete two-article input analysed in one-article
batches whose responses give scores 10 and 90. -/
theorem C6_output_sorted_and_stable_witness :
    1 ≤ 1 ∧
    List.Pairwise (fun a b : AnalyzedArticle => b.relevanceScore ≤ a.relevanceScore)
      (analyzeArticlesBatch
        [⟨"a1", "t1", "l1", "c1", none⟩, ⟨"a2", "t2", "l2", "c2", none⟩] "r" 1
        (fun i st =>
          (.ok (some (if i = 0 then "ARTICLE_ID: 1 RELEVANCE_SCORE: 10 EXPLANATION: w"
            else "ARTICLE_ID: 1 RELEVANCE_SCORE: 90 EXPLANATION: v").data), st))
        ⟨0, 0, 0, ⟨0, 2026⟩, 0⟩).1 :=
  ⟨by decide,
    (C6_output_sorted_and_stable
      [⟨"a1", "t1", "l1", "c1", none⟩, ⟨"a2", "t2", "l2", "c2", none⟩] "r" 1
      (fun i st =>
        (.ok (some (if i = 0 then "ARTICLE_ID: 1 RELEVANCE_SCORE: 10 EXPLANATION: w"
          else "ARTICLE_ID: 1 RELEVANCE_SCORE: 90 EXPLANATION: v").data), st))
      ⟨0, 0, 0, ⟨0, 2026⟩, 0⟩ (by decide)).1⟩

end AlertsFilter
